import Mathlib

set_option maxHeartbeats 1000000
set_option maxRecDepth 4000

/- Shallow embedding of jh125486/smtpd, file src/conn.go.

   Modelling conventions:
   - Go strings and byte streams are modelled as `List Char` (the SMTP data
     handled by this repository is ASCII; `strings.ToUpper` is modelled by
     mapping `Char.toUpper`, which agrees with Go's Unicode uppercasing on
     ASCII input).
   - The embedded `net.Conn` transport is modelled as the finite stream of
     bytes (field `input`) that it will ever deliver, followed by end of
     stream.  `SetReadDeadline` / `SetWriteDeadline` have no observable
     effect on the values computed and are dropped; the timeout fields are
     kept as plain data.
   - `sync.Once` plus `textproto.Conn`: the lazily built line decoder is a
     field `textProto : Option (List Char)` holding the not-yet-consumed
     part of the (possibly size-capped) input stream; `none` means "not
     constructed yet".  Construction (`tp`) snapshots the capped stream,
     exactly as `textproto.NewConn` wrapping `io.LimitReader(c, c.MaxSize)`
     does for a deterministic stream.
   - Go methods that mutate the receiver and return an error are modelled
     as functions `Conn → ... → Option GoError × Conn` (or
     `Except GoError α × Conn` when they also return values); the returned
     connection is the post-state. -/

namespace Smtpd

/-- Errors observable in `conn.go`.  `errTransaction` is the package-level
value `ErrTransaction` (declared elsewhere in the repository; the point
relevant here is that `conn.go` returns this one same value from both
`StartTX` and `EndTX`).  `eof` is `io.EOF`; `unexpectedEOF` is
`io.ErrUnexpectedEOF`.  `sizeExceeded` is the `SizeExceeded` error named by
the specification's error taxonomy; the code under `src/` never produces
such an error (see the C2 theorems). -/
inductive GoError where
  | errTransaction
  | eof
  | unexpectedEOF
  | sizeExceeded
deriving DecidableEq, Repr

/-- The package-level error value `ErrTransaction`, returned by both
`StartTX` (transaction already open) and `EndTX` (no transaction open). -/
def ErrTransaction : GoError := GoError.errTransaction

/-- Model of `*mail.Address` (a parsed RFC 5322 address). -/
structure MailAddress where
  name : List Char
  address : List Char
deriving DecidableEq, Repr

/-- Model of the `AuthUser` interface (declared elsewhere in the
repository): an opaque identity credential. -/
structure AuthUser where
  ident : List Char
deriving DecidableEq, Repr

/-- Model of `smtpd.Conn` (src/conn.go lines 17-39).  `input` stands for
the embedded `net.Conn`: the byte stream the transport will deliver.
`transaction` is the unexported transaction token; `textProto` is the
`asTextProto sync.Once` / `textProto *textproto.Conn` pair: `none` until
the first read constructs the decoder, afterwards the decoder's remaining
(unconsumed) byte stream.  The `lock sync.Mutex` field guards concurrent
field access and has no sequential semantics, so it is not represented. -/
structure Conn where
  input : List Char
  IsTLS : Bool
  Errors : List GoError
  User : Option AuthUser
  FromAddr : Option MailAddress
  ToAddr : List MailAddress
  MaxSize : Int
  ReadTimeout : Int
  WriteTimeout : Int
  transaction : Int
  textProto : Option (List Char)

/-- A freshly accepted connection: the caller supplies the transport and
configuration; all mutable protocol state has its Go zero value. -/
def Conn.fresh (inp : List Char) (tls : Bool) (ms rt wt : Int) : Conn :=
  { input := inp, IsTLS := tls, Errors := [], User := none, FromAddr := none,
    ToAddr := [], MaxSize := ms, ReadTimeout := rt, WriteTimeout := wt,
    transaction := 0, textProto := none }

/-- Model of `(c *Conn) tp()` (src/conn.go lines 42-50): on first use it
builds the textproto decoder over the connection, capping the source at
`MaxSize` bytes via `io.LimitReader` when `MaxSize > 0`; on every later
use the `sync.Once` skips construction and the already-built decoder is
returned.  Returns the post-state connection and the decoder's current
stream. -/
def tp (c : Conn) : Conn × List Char :=
  match c.textProto with
  | some s => (c, s)
  | none =>
    let s := if 0 < c.MaxSize then c.input.take c.MaxSize.toNat else c.input
    ({ c with textProto := some s }, s)

/-- Model of `(c *Conn) StartTX(from *mail.Address) error` (src/conn.go
lines 53-60).  `now` stands for `int(time.Now().UnixNano())`, the fresh
transaction token taken from the clock. -/
def StartTX (c : Conn) (fromA : Option MailAddress) (now : Int) :
    Option GoError × Conn :=
  if c.transaction ≠ 0 then (some ErrTransaction, c)
  else (none, { c with transaction := now, FromAddr := fromA })

/-- Model of `(c *Conn) EndTX() error` (src/conn.go lines 63-69). -/
def EndTX (c : Conn) : Option GoError × Conn :=
  if c.transaction = 0 then (some ErrTransaction, c)
  else (none, { c with transaction := 0 })

/-- Model of `(c *Conn) Reset()` (src/conn.go lines 71-76). -/
def Reset (c : Conn) : Conn :=
  { c with User := none, FromAddr := none, ToAddr := [], transaction := 0 }

/-- Split a stream at its first newline byte: `some (raw, rest)` when a
`\n` exists (`raw` strictly before it, `rest` strictly after), `none`
otherwise.  This is the line-scanning core of `bufio.Reader.ReadSlice`
over the full stream. -/
def splitAtNL : List Char → Option (List Char × List Char)
  | [] => none
  | c :: cs =>
    if c = '\n' then some ([], cs)
    else (splitAtNL cs).map (fun p => (c :: p.1, p.2))

/-- Drop a single trailing carriage return, as `bufio.Reader.ReadLine`
does for a line ending in `\r\n`. -/
def dropTrailingCR (l : List Char) : List Char :=
  if l.getLast? = some '\r' then l.dropLast else l

/-- Model of `textproto.Reader.ReadLine` on a byte stream: at end of
stream it fails with `io.EOF`; a complete line has its `\n` (and one `\r`
preceding it) stripped; a nonempty stream with no `\n` is the documented
bufio behaviour at EOF with partial data: the partial line is returned
without error, and the following read hits `io.EOF`. -/
def readLineCore (input : List Char) : Except GoError (List Char × List Char) :=
  if input = [] then .error .eof
  else
    match splitAtNL input with
    | some p => .ok (dropTrailingCR p.1, p.2)
    | none => .ok (input, [])

/-- Model of `strings.SplitN(line, " ", 2)`: the text before the first
space, and `some` remainder when a space exists. -/
def splitN2 : List Char → List Char × Option (List Char)
  | [] => ([], none)
  | c :: rest =>
    if c = ' ' then ([], some rest)
    else
      let p := splitN2 rest
      (c :: p.1, p.2)

/-- Model of `strings.ToUpper` on ASCII data (Go's Unicode uppercasing
agrees with `Char.toUpper` on ASCII). -/
def toUpperStr (l : List Char) : List Char := l.map Char.toUpper

/-- Model of `(c *Conn) ReadSMTP()` (src/conn.go lines 79-94): read one
line through the lazily built decoder, split on the first space, uppercase
the verb, pass the remainder (possibly empty) through unchanged. -/
def ReadSMTP (c : Conn) : Except GoError (List Char × List Char) × Conn :=
  let p := tp c
  match readLineCore p.2 with
  | .ok (line, rest) =>
    let cmd := splitN2 line
    (.ok (toUpperStr cmd.1, cmd.2.getD []), { p.1 with textProto := some rest })
  | .error e => (.error e, p.1)

/-- Model of `(c *Conn) ReadLine()` (src/conn.go lines 97-100). -/
def ReadLine (c : Conn) : Except GoError (List Char) × Conn :=
  let p := tp c
  match readLineCore p.2 with
  | .ok (line, rest) => (.ok line, { p.1 with textProto := some rest })
  | .error e => (.error e, p.1)

/-- One step of dot-unstuffing from `textproto.Reader.ReadDotLines`: a
line starting with `.` (other than the bare terminator, handled by the
caller) has that one dot removed. -/
def unstuff : List Char → List Char
  | [] => []
  | c :: t => if c = '.' then t else c :: t

/-- Model of `textproto.Reader.ReadDotLines`, fuelled for structural
recursion: lines are read until a bare `.` line (success, terminator not
included); any other line starting with `.` has one dot stripped; `io.EOF`
before the terminator becomes `io.ErrUnexpectedEOF`.  Each iteration
consumes at least one byte of the stream, so `fuel ≥ input.length` gives
the exact behaviour: the fuel-0 branch is then only reached with an empty
stream, where `io.EOF` → `io.ErrUnexpectedEOF` is the answer anyway. -/
def readDotLinesF : Nat → List Char → Except GoError (List (List Char) × List Char)
  | 0, _ => .error .unexpectedEOF
  | fuel + 1, input =>
    match readLineCore input with
    | .error e => .error (if e = .eof then .unexpectedEOF else e)
    | .ok (line, rest) =>
      if line = ['.'] then .ok ([], rest)
      else
        match readDotLinesF fuel rest with
        | .ok p => .ok (unstuff line :: p.1, p.2)
        | .error e => .error e

/-- Model of `textproto.Reader.ReadDotLines` on a stream. -/
def readDotLines (input : List Char) : Except GoError (List (List Char) × List Char) :=
  readDotLinesF input.length input

/-- Model of `(c *Conn) ReadData()` (src/conn.go lines 103-107): read the
dot-stuffed block and join the lines with `\n` (`strings.Join(lines,
"\n")`).  On error Go returns the join of the partial lines alongside the
error; only the error is retained here, as the claims concern the success
path. -/
def ReadData (c : Conn) : Except GoError (List Char) × Conn :=
  let p := tp c
  match readDotLines p.2 with
  | .ok (v, rest) => (.ok (List.intercalate ['\n'] v), { p.1 with textProto := some rest })
  | .error e => (.error e, p.1)

/-- The transaction-lifecycle calls of the Session API, as trace events.
`startTX` carries the caller's address argument and the clock token
`int(time.Now().UnixNano())` drawn at that call. -/
inductive Op where
  | startTX (fromA : Option MailAddress) (tk : Int)
  | endTX
  | reset
deriving DecidableEq, Repr

/-- Post-state of one API call (errors discarded; the Go methods leave the
receiver unchanged when they fail). -/
def step (c : Conn) : Op → Conn
  | .startTX f tk => (StartTX c f tk).2
  | .endTX => (EndTX c).2
  | .reset => Reset c

/-- Run a sequence of transaction-lifecycle calls. -/
def run (c : Conn) (t : List Op) : Conn := t.foldl step c

/-- Whether a trace event is a `StartTX` call. -/
def Op.isStart : Op → Bool
  | .startTX _ _ => true
  | _ => false

/-- Every `startTX` event in a trace carries a nonzero clock token.  On
the real clock `int(time.Now().UnixNano())` is never 0, so every actual
trace satisfies this. -/
def tokensNonzero (t : List Op) : Prop :=
  ∀ (f : Option MailAddress) (tk : Int), Op.startTX f tk ∈ t → tk ≠ 0

/-- Session states reachable from a fresh connection under any sequence of
`StartTX`, `EndTX`, `Reset` calls (with real clock tokens, which are
nonzero). -/
inductive Reachable : Conn → Prop where
  | init (inp : List Char) (tls : Bool) (ms rt wt : Int) :
      Reachable (Conn.fresh inp tls ms rt wt)
  | start {c : Conn} (f : Option MailAddress) (tk : Int)
      (hc : Reachable c) (htk : tk ≠ 0) : Reachable (StartTX c f tk).2
  | endTx {c : Conn} (hc : Reachable c) : Reachable (EndTX c).2
  | reset {c : Conn} (hc : Reachable c) : Reachable (Reset c)

/-- Perform `k` successive line reads through the decoder, collecting the
delivered lines and the remaining stream; `none` if any read fails. -/
def readLines : Nat → List Char → Option (List (List Char) × List Char)
  | 0, input => some ([], input)
  | k + 1, input =>
    match readLineCore input with
    | .ok (l, r) =>
      match readLines k r with
      | some p => some (l :: p.1, p.2)
      | none => none
    | .error _ => none

/-- Dot-stuff one line for the wire (spec 6: a leading `.` is escaped by
doubling it). -/
def stuff (l : List Char) : List Char :=
  if l.head? = some '.' then '.' :: l else l

/-- SMTP DATA wire encoding of a message body (spec 6: each line
dot-stuffed and CRLF-terminated, block closed by a lone `.` line).  Used
to state what `ReadData` decodes. -/
def dotEncode : List (List Char) → List Char
  | [] => ['.', '\r', '\n']
  | l :: ls => stuff l ++ ('\r' :: '\n' :: dotEncode ls)

/-- A concrete address for witnesses and counterexamples. -/
def addrA : MailAddress := { name := [], address := "a@b.com".toList }

/-- A connection with an open transaction, for witnesses. -/
def connOpen : Conn :=
  { Conn.fresh [] false 0 0 0 with transaction := 5, FromAddr := some addrA }

/-- The state reached by `StartTX addrA; EndTX` from a fresh session:
transaction token cleared, sender address still set. -/
def cBadC1 : Conn :=
  (EndTX (StartTX (Conn.fresh [] false 0 0 0) (some addrA) 5).2).2

/-- A connection whose client sends 13 bytes while `MaxSize = 10`. -/
def connHW : Conn := Conn.fresh "HELLO WORLD\r\n".toList false 10 0 0

/-- A successful `EndTX` and a failed one both leave the transaction token
at 0. -/
theorem endTX_snd_transaction (c : Conn) : ((EndTX c).2).transaction = 0 := by
  by_cases h : c.transaction = 0 <;> simp [EndTX, h]

/-- Success criterion of `EndTX`: it returns no error exactly when a
transaction token is set. -/
theorem endTX_ok_iff (c : Conn) : (EndTX c).1 = none ↔ c.transaction ≠ 0 := by
  by_cases h : c.transaction = 0 <;> simp [EndTX, h]

/-- Splitting a snoc list at a distinguished cons cell: the appended
element is either that cell's head or lies in its tail. -/
theorem snoc_decomp {α : Type} {t t₁ t₂ : List α} {op x : α}
    (heq : t ++ [op] = t₁ ++ x :: t₂) : op = x ∨ op ∈ t₂ := by
  induction t₁ generalizing t with
  | nil =>
    cases t with
    | nil =>
      have h1 : op = x ∧ ([] : List α) = t₂ := by
        have := heq
        simp at this
        exact ⟨this.1, this.2.symm⟩
      exact Or.inl h1.1
    | cons a t' =>
      have h2 : t' ++ [op] = t₂ := by
        have := heq
        simp at this
        exact this.2
      exact Or.inr (h2 ▸ List.mem_append.2 (Or.inr (by simp)))
  | cons b t₁' ih =>
    cases t with
    | nil =>
      exfalso
      have := heq
      simp at this
    | cons a t' =>
      have h3 : t' ++ [op] = t₁' ++ x :: t₂ := by
        have := heq
        simp at this
        exact this.2
      exact ih h3

/-- Run distributes over a final call. -/
theorem run_snoc (c : Conn) (t : List Op) (op : Op) :
    run c (t ++ [op]) = step (run c t) op := by
  simp [run, List.foldl_append]

/-- Trace characterization of an open transaction: starting from a session
with no transaction token, the token is nonzero after a trace exactly when
the trace ends in a successful `StartTX` followed only by (necessarily
failing) `StartTX` calls — no `EndTX`, no `Reset`. -/
theorem run_open_iff (c0 : Conn) (h0 : c0.transaction = 0) (t : List Op)
    (hnz : tokensNonzero t) :
    (run c0 t).transaction ≠ 0 ↔
      ∃ t₁ f tk t₂, t = t₁ ++ Op.startTX f tk :: t₂ ∧
        (StartTX (run c0 t₁) f tk).1 = none ∧ ∀ x ∈ t₂, x.isStart = true := by
  induction t using List.reverseRecOn with
  | nil =>
    have hr : run c0 [] = c0 := rfl
    rw [hr, h0]
    constructor
    · intro h; exact absurd rfl h
    · rintro ⟨t₁, f, tk, t₂, heq, -, -⟩
      exact absurd heq (by simp)
  | append_singleton t op ih =>
    have hnzt : tokensNonzero t :=
      fun f tk hm => hnz f tk (List.mem_append.2 (Or.inl hm))
    rw [run_snoc]
    cases op with
    | reset =>
      constructor
      · intro h
        exact absurd (by simp [step, Reset] :
          (step (run c0 t) Op.reset).transaction = 0) h
      · rintro ⟨t₁, f, tk, t₂, heq, -, hall⟩
        rcases snoc_decomp heq with h1 | h2
        · exact absurd h1 (by simp)
        · have := hall _ h2
          simp [Op.isStart] at this
    | endTX =>
      constructor
      · intro h
        exact absurd (endTX_snd_transaction (run c0 t)) h
      · rintro ⟨t₁, f, tk, t₂, heq, -, hall⟩
        rcases snoc_decomp heq with h1 | h2
        · exact absurd h1 (by simp)
        · have := hall _ h2
          simp [Op.isStart] at this
    | startTX f tk =>
      have htk : tk ≠ 0 := hnz f tk (List.mem_append.2 (Or.inr (by simp)))
      by_cases hopen : (run c0 t).transaction = 0
      · have hlhs : (step (run c0 t) (Op.startTX f tk)).transaction = tk := by
          simp [step, StartTX, hopen]
        rw [hlhs]
        constructor
        · intro _
          exact ⟨t, f, tk, [], rfl, by simp [StartTX, hopen], by simp⟩
        · intro _; exact htk
      · have hlhs : (step (run c0 t) (Op.startTX f tk)).transaction
            = (run c0 t).transaction := by
          simp [step, StartTX, hopen]
        rw [hlhs]
        constructor
        · intro h
          rcases (ih hnzt).mp h with ⟨t₁, f', tk', t₂, heq, hsucc, hall⟩
          refine ⟨t₁, f', tk', t₂ ++ [Op.startTX f tk], by rw [heq]; simp, hsucc, ?_⟩
          intro x hx
          rcases List.mem_append.1 hx with h1 | h1
          · exact hall x h1
          · simp at h1; subst h1; rfl
        · intro _; exact hopen

/-- C1 counterexample: the claimed three-way equivalence fails on the
code.  After a successful StartTX followed by a successful EndTX the
session has `transaction = 0` (no transaction is open) while `FromAddr` is
still the address stored by StartTX, so `transaction == 0` does not imply
`FromAddr == nil` on reachable states. -/
theorem c1_counterexample :
    ¬ ∀ c : Conn, Reachable c → (c.transaction = 0 ↔ c.FromAddr = none) := by
  intro h
  have hr : Reachable cBadC1 :=
    Reachable.endTx (Reachable.start (some addrA) 5
      (Reachable.init [] false 0 0 0) (by decide))
  have h2 := (h cBadC1 hr).mp (by decide)
  revert h2
  decide

/-- C1 amended: on every reachable session state, `transaction == 0` is
equivalent to "no transaction is open" (an EndTX at that state fails with
`ErrTransaction`, and it succeeds exactly when the token is nonzero); the
third condition `FromAddr == nil` of the original claim is not equivalent
to these (see the counterexample). -/
theorem c1_amended (c : Conn) (_hc : Reachable c) :
    (c.transaction = 0 ↔ (EndTX c).1 = some ErrTransaction) ∧
      (c.transaction ≠ 0 ↔ (EndTX c).1 = none) := by
  constructor
  · by_cases h : c.transaction = 0 <;> simp [EndTX, h]
  · exact (endTX_ok_iff c).symm

/-- Witness for C1 amended at the concrete reachable state of the
counterexample: `StartTX; EndTX` from a fresh session. -/
theorem c1_amended_witness :
    (cBadC1.transaction = 0 ↔ (EndTX cBadC1).1 = some ErrTransaction) ∧
      (cBadC1.transaction ≠ 0 ↔ (EndTX cBadC1).1 = none) :=
  c1_amended cBadC1
    (Reachable.endTx (Reachable.start (some addrA) 5
      (Reachable.init [] false 0 0 0) (by decide)))

/-- C3: over any trace of StartTX, EndTX and Reset calls from a fresh
session (with its real, nonzero clock tokens), a final EndTX succeeds if
and only if the trace contains a successful StartTX followed by no EndTX
and no Reset — only (failing) StartTX calls may intervene. -/
theorem c3_endtx_iff (inp : List Char) (tls : Bool) (ms rt wt : Int)
    (t : List Op) (hnz : tokensNonzero t) :
    (EndTX (run (Conn.fresh inp tls ms rt wt) t)).1 = none ↔
      ∃ t₁ f tk t₂, t = t₁ ++ Op.startTX f tk :: t₂ ∧
        (StartTX (run (Conn.fresh inp tls ms rt wt) t₁) f tk).1 = none ∧
        ∀ x ∈ t₂, x.isStart = true := by
  rw [endTX_ok_iff]
  exact run_open_iff (Conn.fresh inp tls ms rt wt) rfl t hnz

/-- Witness for C3: after the one-call trace `StartTX addrA`, EndTX
succeeds. -/
theorem c3_witness :
    (EndTX (run (Conn.fresh [] false 0 0 0) [Op.startTX (some addrA) 5])).1 = none := by
  have h := c3_endtx_iff [] false 0 0 0 [Op.startTX (some addrA) 5]
    (by intro f tk hm
        simp at hm
        omega)
  exact h.mpr ⟨[], some addrA, 5, [], rfl, by decide, by simp⟩

/-- A newline-free stream has no split point. -/
theorem splitAtNL_not_mem {l : List Char} (h : '\n' ∉ l) : splitAtNL l = none := by
  induction l with
  | nil => rfl
  | cons c cs ih =>
    have hc : ¬ c = '\n' := fun hh => h (hh ▸ List.mem_cons_self c cs)
    have hcs : '\n' ∉ cs := fun hh => h (List.mem_cons_of_mem c hh)
    simp [splitAtNL, hc, ih hcs]

/-- Splitting at the first newline of an explicitly newline-terminated
prefix. -/
theorem splitAtNL_append {pre : List Char} (rest : List Char) (h : '\n' ∉ pre) :
    splitAtNL (pre ++ '\n' :: rest) = some (pre, rest) := by
  induction pre with
  | nil => simp [splitAtNL]
  | cons c cs ih =>
    have hc : ¬ c = '\n' := fun hh => h (hh ▸ List.mem_cons_self c cs)
    have hcs : '\n' ∉ cs := fun hh => h (List.mem_cons_of_mem c hh)
    simp [splitAtNL, hc, ih hcs]

/-- Characterization of a successful newline split. -/
theorem splitAtNL_eq_some {l a b : List Char} (h : splitAtNL l = some (a, b)) :
    l = a ++ '\n' :: b ∧ '\n' ∉ a := by
  induction l generalizing a b with
  | nil => simp [splitAtNL] at h
  | cons c cs ih =>
    by_cases hc : c = '\n'
    · subst hc
      simp [splitAtNL] at h
      rcases h with ⟨h1, h2⟩
      subst h1
      subst h2
      simp
    · cases hcs : splitAtNL cs with
      | none => simp [splitAtNL, hc, hcs] at h
      | some p =>
        simp [splitAtNL, hc, hcs] at h
        rcases ih (a := p.1) (b := p.2) (by exact hcs) with ⟨heq, hnm⟩
        rcases h with ⟨h1, h2⟩
        subst h1
        subst h2
        constructor
        · simp [heq]
        · intro hm
          rcases List.mem_cons.1 hm with hm | hm
          · exact hc hm.symm
          · exact hnm hm

/-- A failed newline split means the stream is newline-free. -/
theorem splitAtNL_eq_none {l : List Char} (h : splitAtNL l = none) : '\n' ∉ l := by
  induction l with
  | nil => simp
  | cons c cs ih =>
    by_cases hc : c = '\n'
    · simp [splitAtNL, hc] at h
    · simp [splitAtNL, hc] at h
      intro hm
      rcases List.mem_cons.1 hm with hm | hm
      · exact hc hm.symm
      · exact ih h hm

/-- Dropping the trailing carriage return of a stream that ends in one. -/
theorem dropTrailingCR_concat (l : List Char) : dropTrailingCR (l ++ ['\r']) = l := by
  unfold dropTrailingCR
  rw [List.getLast?_append_cons]
  simp

/-- Reading one line from a newline-terminated stream. -/
theorem readLineCore_newline {raw : List Char} (rest : List Char) (h : '\n' ∉ raw) :
    readLineCore (raw ++ '\n' :: rest) = .ok (dropTrailingCR raw, rest) := by
  simp [readLineCore, splitAtNL_append rest h]

/-- Reading one line from a CRLF-terminated stream delivers the line with
the terminator stripped and leaves exactly the bytes after the
terminator. -/
theorem readLineCore_crlf {line : List Char} (rest : List Char) (h : '\n' ∉ line) :
    readLineCore (line ++ '\r' :: '\n' :: rest) = .ok (line, rest) := by
  have h2 : '\n' ∉ line ++ ['\r'] := by
    intro hm
    rcases List.mem_append.1 hm with hm | hm
    · exact h hm
    · simp at hm
  have h3 := readLineCore_newline rest h2
  rw [List.append_assoc] at h3
  simpa [dropTrailingCR_concat] using h3

/-- Case analysis of a successful decoder line read: either the stream had
a newline (the line is the prefix with one trailing CR stripped) or the
nonempty stream was newline-free (the bufio partial-line-at-EOF case). -/
theorem readLineCore_ok_cases {inp l r : List Char}
    (h : readLineCore inp = .ok (l, r)) :
    (∃ raw, inp = raw ++ '\n' :: r ∧ '\n' ∉ raw ∧ l = dropTrailingCR raw) ∨
      (inp ≠ [] ∧ '\n' ∉ inp ∧ l = inp ∧ r = []) := by
  by_cases hne : inp = []
  · subst hne
    simp [readLineCore] at h
  · cases hs : splitAtNL inp with
    | some p =>
      left
      rcases splitAtNL_eq_some (a := p.1) (b := p.2) (by exact hs) with ⟨heq, hnm⟩
      simp [readLineCore, hne, hs] at h
      exact ⟨p.1, by rw [heq, h.2], hnm, h.1.symm⟩
    | none =>
      right
      have hnm := splitAtNL_eq_none hs
      simp [readLineCore, hne, hs] at h
      exact ⟨hne, hnm, h.1.symm, h.2⟩

/-- A successful line read never grows the remaining stream. -/
theorem readLineCore_length {inp l r : List Char}
    (h : readLineCore inp = .ok (l, r)) : r.length ≤ inp.length := by
  rcases readLineCore_ok_cases h with ⟨raw, heq, -, -⟩ | ⟨-, -, -, hr⟩
  · subst heq
    simp
    omega
  · subst hr
    simp

/-- The decoder accessor reuses an already-constructed decoder without
touching the connection. -/
theorem tp_some {c : Conn} {s : List Char} (h : c.textProto = some s) :
    tp c = (c, s) := by
  simp [tp, h]

/-- Splitting a space-free command line on the first space. -/
theorem splitN2_no_space {l : List Char} (h : ' ' ∉ l) : splitN2 l = (l, none) := by
  induction l with
  | nil => rfl
  | cons c cs ih =>
    have hc : ¬ c = ' ' := fun hh => h (hh ▸ List.mem_cons_self c cs)
    have hcs : ' ' ∉ cs := fun hh => h (List.mem_cons_of_mem c hh)
    simp [splitN2, hc, ih hcs]

/-- Splitting a command line on its first space. -/
theorem splitN2_space {pre : List Char} (post : List Char) (h : ' ' ∉ pre) :
    splitN2 (pre ++ ' ' :: post) = (pre, some post) := by
  induction pre with
  | nil => simp [splitN2]
  | cons c cs ih =>
    have hc : ¬ c = ' ' := fun hh => h (hh ▸ List.mem_cons_self c cs)
    have hcs : ' ' ∉ cs := fun hh => h (List.mem_cons_of_mem c hh)
    simp [splitN2, hc, ih hcs]

/-- ReadSMTP on a successful line read: the delivered verb/args are the
first-space split of the delivered line, verb uppercased. -/
theorem readSMTP_ok {c : Conn} {s line rest : List Char}
    (hs : c.textProto = some s) (hr : readLineCore s = .ok (line, rest)) :
    (ReadSMTP c).1 = .ok (toUpperStr (splitN2 line).1, ((splitN2 line).2).getD []) := by
  simp [ReadSMTP, tp_some hs, hr]

/-- C7: whenever a line is successfully read, ReadSMTP returns the
uppercased text before the line's first space as the verb and the
remainder after that first space — unsplit, case preserved, empty when the
line has no space — as the args; on input with line
MAIL FROM:\x3ca@b.com\x3e it yields verb MAIL and those args, and on line
QUIT it yields verb QUIT and empty args. -/
theorem c7_readsmtp :
    (∀ (c : Conn) (s line rest pre post : List Char),
        c.textProto = some s → readLineCore s = .ok (line, rest) →
        line = pre ++ ' ' :: post → ' ' ∉ pre →
        (ReadSMTP c).1 = .ok (toUpperStr pre, post)) ∧
      (∀ (c : Conn) (s line rest : List Char),
        c.textProto = some s → readLineCore s = .ok (line, rest) →
        ' ' ∉ line → (ReadSMTP c).1 = .ok (toUpperStr line, [])) ∧
      (ReadSMTP (Conn.fresh "MAIL FROM:<a@b.com>\r\n".toList false 0 0 0)).1
        = .ok ("MAIL".toList, "FROM:<a@b.com>".toList) ∧
      (ReadSMTP (Conn.fresh "QUIT\r\n".toList false 0 0 0)).1
        = .ok ("QUIT".toList, "".toList) := by
  refine ⟨?_, ?_, ?_, ?_⟩
  · intro c s line rest pre post hs hr hline hsp
    subst hline
    rw [readSMTP_ok hs hr, splitN2_space post hsp]
    rfl
  · intro c s line rest hs hr hsp
    rw [readSMTP_ok hs hr, splitN2_no_space hsp]
    rfl
  · rfl
  · rfl

/-- Witness for C7 at a concrete session whose decoder holds one command
line with arguments. -/
theorem c7_witness :
    (ReadSMTP { Conn.fresh [] false 0 0 0 with
        textProto := some "ehlo There\r\n".toList }).1
      = .ok (toUpperStr "ehlo".toList, "There".toList) :=
  c7_readsmtp.1 { Conn.fresh [] false 0 0 0 with
      textProto := some "ehlo There\r\n".toList }
    "ehlo There\r\n".toList "ehlo There".toList [] "ehlo".toList "There".toList
    rfl (by rfl) (by rfl) (by decide)

/-- Dot-stuffing introduces no newline. -/
theorem stuff_not_nl {l : List Char} (h : '\n' ∉ l) : '\n' ∉ stuff l := by
  unfold stuff
  split
  · intro hm
    rcases List.mem_cons.1 hm with hm | hm
    · simp at hm
    · exact h hm
  · exact h

/-- A dot-stuffed line is never the bare terminator line. -/
theorem stuff_ne_dot (l : List Char) : stuff l ≠ ['.'] := by
  unfold stuff
  cases l with
  | nil => simp
  | cons c t =>
    by_cases hc : c = '.'
    · subst hc
      simp
    · simp [hc]

/-- Unstuffing undoes stuffing. -/
theorem unstuff_stuff (l : List Char) : unstuff (stuff l) = l := by
  unfold stuff
  cases l with
  | nil => rfl
  | cons c t =>
    by_cases hc : c = '.'
    · subst hc
      simp [unstuff]
    · simp [hc, unstuff]

/-- Decoding a dot-stuffed encoded block with enough fuel recovers exactly
the encoded lines and leaves the bytes after the terminator unread. -/
theorem readDotLinesF_encode (lines : List (List Char)) :
    ∀ (rest : List Char) (fuel : Nat),
      (dotEncode lines ++ rest).length ≤ fuel →
      (∀ l ∈ lines, '\n' ∉ l) →
      readDotLinesF fuel (dotEncode lines ++ rest) = .ok (lines, rest) := by
  induction lines with
  | nil =>
    intro rest fuel hf _hl
    cases fuel with
    | zero =>
      exfalso
      have hlen : (dotEncode ([] : List (List Char)) ++ rest).length
          = 3 + rest.length := by
        simp [dotEncode]
        omega
      omega
    | succ g =>
      have h1 : dotEncode ([] : List (List Char)) ++ rest
          = ('.' :: '\r' :: '\n' :: rest : List Char) := by
        simp [dotEncode]
      rw [h1]
      have h2 : readLineCore ('.' :: '\r' :: '\n' :: rest) = .ok (['.'], rest) := by
        have h3 := @readLineCore_crlf ['.'] rest (by simp)
        simpa using h3
      simp [readDotLinesF, h2]
  | cons l ls ih =>
    intro rest fuel hf hl
    have hl0 : '\n' ∉ l := hl l (by simp)
    have hls : ∀ x ∈ ls, '\n' ∉ x := fun x hx => hl x (by simp [hx])
    have h1 : dotEncode (l :: ls) ++ rest
        = stuff l ++ '\r' :: '\n' :: (dotEncode ls ++ rest) := by
      simp [dotEncode]
    have hlen : (dotEncode (l :: ls) ++ rest).length
        = (stuff l).length + 2 + (dotEncode ls ++ rest).length := by
      rw [h1]
      simp
      omega
    cases fuel with
    | zero =>
      exfalso
      omega
    | succ g =>
      rw [h1]
      have h2 : readLineCore (stuff l ++ '\r' :: '\n' :: (dotEncode ls ++ rest))
          = .ok (stuff l, dotEncode ls ++ rest) :=
        readLineCore_crlf _ (stuff_not_nl hl0)
      have h4 := ih rest g (by omega) hls
      simp [readDotLinesF, h2, h4, unstuff_stuff, stuff_ne_dot]

/-- Decoding an encoded block through the decoder entry point. -/
theorem readDotLines_encode (lines : List (List Char)) (rest : List Char)
    (hl : ∀ l ∈ lines, '\n' ∉ l) :
    readDotLines (dotEncode lines ++ rest) = .ok (lines, rest) :=
  readDotLinesF_encode lines rest (dotEncode lines ++ rest).length le_rfl hl

/-- C8: ReadData reads dot-stuffed lines until the lone-dot terminator,
removes one leading dot from every other line that starts with a dot,
excludes the terminator line, and returns the remaining lines joined by a
single newline; in particular on input Hello CRLF ..Dots CRLF . CRLF it
returns Hello, newline, .Dots. -/
theorem c8_readdata :
    (∀ (c : Conn) (lines : List (List Char)) (rest : List Char),
        c.textProto = some (dotEncode lines ++ rest) →
        (∀ l ∈ lines, '\n' ∉ l) →
        (ReadData c).1 = .ok (List.intercalate ['\n'] lines)) ∧
      (ReadData (Conn.fresh "Hello\r\n..Dots\r\n.\r\n".toList false 0 0 0)).1
        = .ok "Hello\n.Dots".toList := by
  constructor
  · intro c lines rest hs hl
    simp [ReadData, tp_some hs, readDotLines_encode lines rest hl]
  · rfl

/-- Witness for C8 at a concrete session whose decoder holds the encoding
of one line. -/
theorem c8_witness :
    (ReadData { Conn.fresh [] false 0 0 0 with
        textProto := some (dotEncode ["Hi".toList] ++ []) }).1
      = .ok (List.intercalate ['\n'] ["Hi".toList]) :=
  c8_readdata.1 { Conn.fresh [] false 0 0 0 with
      textProto := some (dotEncode ["Hi".toList] ++ []) }
    ["Hi".toList] [] rfl (by decide)

/-- A single line read whose consumption stays within the first N bytes of
the stream behaves identically when the stream is capped at N bytes. -/
theorem readLineCore_take {inp l r : List Char} {N : Nat}
    (h : readLineCore inp = .ok (l, r)) (hN : inp.length - r.length ≤ N) :
    readLineCore (inp.take N) = .ok (l, r.take (N - (inp.length - r.length))) := by
  rcases readLineCore_ok_cases h with ⟨raw, heq, hnm, hl⟩ | ⟨hne, hnm, hl, hr⟩
  · subst heq
    have hc : (raw ++ '\n' :: r).length - r.length = raw.length + 1 := by
      simp
      omega
    rw [hc] at hN ⊢
    obtain ⟨m, hm⟩ : ∃ m, N - raw.length = m + 1 := ⟨N - raw.length - 1, by omega⟩
    have htake : (raw ++ '\n' :: r).take N = raw ++ '\n' :: r.take m := by
      rw [List.take_append_eq_append_take, List.take_of_length_le (by omega), hm,
        List.take_succ_cons]
    rw [htake, readLineCore_newline _ hnm, hl]
    have h6 : m = N - (raw.length + 1) := by omega
    rw [h6]
  · subst hr
    simp only [List.length_nil, Nat.sub_zero] at hN
    rw [List.take_of_length_le hN]
    simpa using h

/-- Successive line reads never grow the remaining stream. -/
theorem readLines_length {k : Nat} : ∀ {inp : List Char} {ls : List (List Char)}
    {r : List Char}, readLines k inp = some (ls, r) → r.length ≤ inp.length := by
  induction k with
  | zero =>
    intro inp ls r h
    simp [readLines] at h
    rw [← h.2]
  | succ k ih =>
    intro inp ls r h
    cases hr : readLineCore inp with
    | error e => simp [readLines, hr] at h
    | ok p =>
      simp only [readLines, hr] at h
      cases hq : readLines k p.2 with
      | none => simp [hq] at h
      | some q =>
        simp [hq] at h
        have len1 : p.2.length ≤ inp.length := readLineCore_length hr
        have len2 : q.2.length ≤ p.2.length := ih (by exact hq)
        have h3 : q.2.length = r.length := by simp [h.2]
        omega

/-- Any sequence of line reads whose cumulative consumption stays within
the first N bytes of the stream succeeds with the same lines when the
stream is capped at N bytes. -/
theorem readLines_take {k : Nat} : ∀ {inp : List Char} {N : Nat}
    {ls : List (List Char)} {r : List Char},
    readLines k inp = some (ls, r) → inp.length - r.length ≤ N →
    readLines k (inp.take N) = some (ls, r.take (N - (inp.length - r.length))) := by
  induction k with
  | zero =>
    intro inp N ls r h hN
    simp [readLines] at h
    obtain ⟨h1, h2⟩ := h
    subst h1
    subst h2
    simp [readLines]
  | succ k ih =>
    intro inp N ls r h hN
    cases hr : readLineCore inp with
    | error e => simp [readLines, hr] at h
    | ok p =>
      simp only [readLines, hr] at h
      cases hq : readLines k p.2 with
      | none => simp [hq] at h
      | some q =>
        simp [hq] at h
        obtain ⟨h1, h2⟩ := h
        have len1 : p.2.length ≤ inp.length := readLineCore_length hr
        have len2 : q.2.length ≤ p.2.length := readLines_length (by exact hq)
        have h3 : q.2.length = r.length := by simp [h2]
        have ht1 : readLineCore (inp.take N)
            = .ok (p.1, p.2.take (N - (inp.length - p.2.length))) :=
          readLineCore_take hr (by omega)
        have ht2 := @ih p.2 (N - (inp.length - p.2.length)) q.1 q.2
          (by exact hq) (by omega)
        have harith : N - (inp.length - p.2.length) - (p.2.length - q.2.length)
            = N - (inp.length - q.2.length) := by omega
        simp only [readLines, ht1, ht2, harith]
        simp [h1, h2]

/-- The only read error the line decoder core produces is end of input. -/
theorem readLineCore_error_eof {inp : List Char} {e : GoError}
    (h : readLineCore inp = .error e) : e = .eof := by
  unfold readLineCore at h
  split at h
  · injection h with h
    exact h.symm
  · split at h <;> simp at h

/-- The dot-block reader never produces the SizeExceeded error. -/
theorem readDotLinesF_no_size (fuel : Nat) : ∀ inp : List Char,
    readDotLinesF fuel inp ≠ .error .sizeExceeded := by
  induction fuel with
  | zero => intro inp; simp [readDotLinesF]
  | succ g ih =>
    intro inp
    cases hr : readLineCore inp with
    | error e =>
      have he := readLineCore_error_eof hr
      subst he
      simp [readDotLinesF, hr]
    | ok p =>
      by_cases hd : p.1 = ['.']
      · simp [readDotLinesF, hr, hd]
      · cases hq : readDotLinesF g p.2 with
        | ok q => simp [readDotLinesF, hr, hd, hq]
        | error e' =>
          simp only [readDotLinesF, hr, hd, hq, if_false]
          intro hcon
          apply ih p.2
          rw [hq]
          simpa using hcon

/-- No read operation of the Session ever fails with SizeExceeded: the
decoder core can only fail with end of input, and the dot-block reader
only with (unexpected) end of input. -/
theorem reads_no_size (c : Conn) :
    (ReadLine c).1 ≠ .error .sizeExceeded ∧
      (ReadSMTP c).1 ≠ .error .sizeExceeded ∧
      (ReadData c).1 ≠ .error .sizeExceeded := by
  refine ⟨?_, ?_, ?_⟩
  · cases hr : readLineCore (tp c).2 with
    | ok p => simp [ReadLine, hr]
    | error e =>
      have he := readLineCore_error_eof hr
      subst he
      simp [ReadLine, hr]
  · cases hr : readLineCore (tp c).2 with
    | ok p => simp [ReadSMTP, hr]
    | error e =>
      have he := readLineCore_error_eof hr
      subst he
      simp [ReadSMTP, hr]
  · cases hr : readDotLines (tp c).2 with
    | ok p => simp [ReadData, hr]
    | error e =>
      simp [ReadData, hr]
      intro hcon
      apply readDotLinesF_no_size ((tp c).2.length) (tp c).2
      unfold readDotLines at hr
      rw [hr]
      simpa using hcon

/-- C2 counterexample: with MaxSize 10 and a client line of 13 bytes, the
read that would need to consume past the cap does not fail with a
SizeExceeded error.  It succeeds, delivering the 10 bytes the capped
reader produced as a truncated line; the following read then fails with
plain end-of-input, which is not a SizeExceeded error either. -/
theorem c2_counterexample :
    (ReadLine connHW).1 = .ok "HELLO WORL".toList ∧
      (ReadLine connHW).1 ≠ .error GoError.sizeExceeded ∧
      (ReadLine (ReadLine connHW).2).1 = .error GoError.eof ∧
      (ReadLine (ReadLine connHW).2).1 ≠ .error GoError.sizeExceeded := by
  have h1 : (ReadLine connHW).1 = .ok "HELLO WORL".toList := rfl
  have h2 : (ReadLine (ReadLine connHW).2).1 = .error GoError.eof := rfl
  refine ⟨h1, ?_, h2, ?_⟩
  · rw [h1]
    simp
  · rw [h2]
    simp

/-- C2 amended: with MaxSize N set positive, the decoder source is capped
at the first N bytes of the transport, so any sequence of reads consuming
at most N cumulative bytes succeeds with exactly the lines it would read
uncapped — such reads never fail because of the cap.  Exceeding the cap
however never produces a SizeExceeded error: no Session read operation
ever returns one (a read hitting the cap mid-line returns the truncated
data without error, and the reads after exhaustion fail with end of
input — see the counterexample). -/
theorem c2_amended :
    (∀ (c : Conn) (k : Nat) (ls : List (List Char)) (r : List Char),
        c.textProto = none → 0 < c.MaxSize →
        readLines k c.input = some (ls, r) →
        c.input.length - r.length ≤ c.MaxSize.toNat →
        ∃ r', readLines k (tp c).2 = some (ls, r')) ∧
      (∀ c : Conn, (ReadLine c).1 ≠ .error GoError.sizeExceeded ∧
        (ReadSMTP c).1 ≠ .error GoError.sizeExceeded ∧
        (ReadData c).1 ≠ .error GoError.sizeExceeded) := by
  constructor
  · intro c k ls r hnone hms h hN
    have htp : (tp c).2 = c.input.take c.MaxSize.toNat := by
      simp [tp, hnone, hms]
    rw [htp]
    exact ⟨_, readLines_take h hN⟩
  · exact reads_no_size

/-- Witness for C2 amended: a 4-byte line read under a 4-byte cap (of a
7-byte stream) succeeds with the same line as uncapped. -/
theorem c2_witness :
    ∃ r', readLines 1 (tp (Conn.fresh "HI\r\nXYZ".toList false 4 0 0)).2
      = some (["HI".toList], r') :=
  c2_amended.1 (Conn.fresh "HI\r\nXYZ".toList false 4 0 0) 1 ["HI".toList]
    "XYZ".toList rfl (by decide) (by rfl) (by decide)

/-- C9: the line decoder is built at most once per Session.  With the
decoder already built, every read operation reuses it unchanged (`tp`
returns the connection as is), no read operation ever un-constructs it,
the first read constructs it, and partial data not consumed by one read is
delivered by the next: two consecutive ReadLine calls return consecutive
lines of the one buffered stream. -/
theorem c9_decoder_once :
    (∀ (c : Conn) (s : List Char), c.textProto = some s →
        tp c = (c, s) ∧
        ((ReadLine c).2).textProto ≠ none ∧
        ((ReadSMTP c).2).textProto ≠ none ∧
        ((ReadData c).2).textProto ≠ none) ∧
      (∀ c : Conn, c.textProto = none → ((ReadLine c).2).textProto ≠ none) ∧
      (∀ (c : Conn) (s l₁ r₁ l₂ r₂ : List Char),
        c.textProto = some s →
        readLineCore s = .ok (l₁, r₁) → readLineCore r₁ = .ok (l₂, r₂) →
        (ReadLine c).1 = .ok l₁ ∧ (ReadLine (ReadLine c).2).1 = .ok l₂) := by
  refine ⟨?_, ?_, ?_⟩
  · intro c s h
    refine ⟨tp_some h, ?_, ?_, ?_⟩
    · cases hr : readLineCore s with
      | ok p => simp [ReadLine, tp_some h, hr]
      | error e => simp [ReadLine, tp_some h, hr, h]
    · cases hr : readLineCore s with
      | ok p => simp [ReadSMTP, tp_some h, hr]
      | error e => simp [ReadSMTP, tp_some h, hr, h]
    · cases hr : readDotLines s with
      | ok p => simp [ReadData, tp_some h, hr]
      | error e => simp [ReadData, tp_some h, hr, h]
  · intro c hnone
    unfold ReadLine tp
    rw [hnone]
    cases hr : readLineCore
        (if 0 < c.MaxSize then c.input.take c.MaxSize.toNat else c.input) <;>
      simp [hr]
  · intro c s l₁ r₁ l₂ r₂ h h1 h2
    have e1 : ReadLine c = (.ok l₁, { c with textProto := some r₁ }) := by
      simp [ReadLine, tp_some h, h1]
    refine ⟨by rw [e1], ?_⟩
    rw [e1]
    have h' : ({ c with textProto := some r₁ } : Conn).textProto = some r₁ := rfl
    simp [ReadLine, tp_some h', h2]

/-- Witness for C9: two consecutive ReadLine calls on a decoder buffering
two lines return them in order. -/
theorem c9_witness :
    (ReadLine { Conn.fresh [] false 0 0 0 with
        textProto := some "A\r\nB\r\n".toList }).1 = .ok "A".toList ∧
      (ReadLine (ReadLine { Conn.fresh [] false 0 0 0 with
        textProto := some "A\r\nB\r\n".toList }).2).1 = .ok "B".toList :=
  c9_decoder_once.2.2 { Conn.fresh [] false 0 0 0 with
      textProto := some "A\r\nB\r\n".toList }
    "A\r\nB\r\n".toList "A".toList "B\r\n".toList "B".toList []
    rfl (by rfl) (by rfl)

/-- C4: calling StartTX while a transaction is already open fails with the
transaction-already-open error value `ErrTransaction` and performs no
mutation at all: the connection state, in particular `FromAddr` (as set by
the first successful StartTX), `transaction`, `ToAddr` and `User`, is
returned unchanged. -/
theorem c4_start_open_no_mutation (c : Conn) (f : Option MailAddress) (tk : Int)
    (h : c.transaction ≠ 0) :
    (StartTX c f tk).1 = some ErrTransaction ∧ (StartTX c f tk).2 = c := by
  simp [StartTX, h]

/-- Witness for C4 at a concrete open-transaction connection. -/
theorem c4_witness :
    (StartTX connOpen none 7).1 = some ErrTransaction ∧
      (StartTX connOpen none 7).2 = connOpen :=
  c4_start_open_no_mutation connOpen none 7 (by decide)

/-- C5: a successful EndTX (transaction open) resets `transaction` to 0
and leaves every other field of the Session unchanged: `FromAddr`,
`ToAddr`, `User`, `Errors`, `IsTLS`, the configuration fields and the
decoder state all keep their prior values. -/
theorem c5_endtx_frame (c : Conn) (h : c.transaction ≠ 0) :
    (EndTX c).1 = none ∧ (EndTX c).2 = { c with transaction := 0 } := by
  simp [EndTX, h]

/-- Witness for C5 at a concrete open-transaction connection. -/
theorem c5_witness :
    (EndTX connOpen).1 = none ∧ (EndTX connOpen).2 = { connOpen with transaction := 0 } :=
  c5_endtx_frame connOpen (by decide)

/-- C6: Reset always succeeds (it is a total function with no error
result) and afterwards the authenticated user is cleared, the sender
address is nil, the recipient list is empty and the transaction token is
0, while the error log, the TLS flag and the configuration fields are
untouched. -/
theorem c6_reset_frame (c : Conn) :
    (Reset c).User = none ∧ (Reset c).FromAddr = none ∧ (Reset c).ToAddr = [] ∧
      (Reset c).transaction = 0 ∧ (Reset c).Errors = c.Errors ∧
      (Reset c).IsTLS = c.IsTLS ∧ (Reset c).MaxSize = c.MaxSize ∧
      (Reset c).ReadTimeout = c.ReadTimeout ∧ (Reset c).WriteTimeout = c.WriteTimeout := by
  simp [Reset]

/-- C10: the error value StartTX returns when a transaction is already
open is the very same value `ErrTransaction` that EndTX returns when no
transaction is open, so the two failure modes cannot be distinguished by
comparing the returned errors. -/
theorem c10_same_error (c c' : Conn) (f : Option MailAddress) (tk : Int)
    (h : c.transaction ≠ 0) (h' : c'.transaction = 0) :
    (StartTX c f tk).1 = some ErrTransaction ∧ (EndTX c').1 = some ErrTransaction := by
  simp [StartTX, EndTX, h, h']

/-- Witness for C10 at concrete connections in the two failure modes. -/
theorem c10_witness :
    (StartTX connOpen none 7).1 = some ErrTransaction ∧
      (EndTX (Conn.fresh [] false 0 0 0)).1 = some ErrTransaction :=
  c10_same_error connOpen (Conn.fresh [] false 0 0 0) none 7 (by decide) (by decide)

end Smtpd
